import Mathlib

/-!
# Verification of the `gologger` structured logger

Shallow embedding of the `logger` package (the most complete variant,
`src/unnamed/part_001`): the message formatter `logMessage`, the per-call
option handling (`checkSaveLogOption`, the `FileLog` override), the JSON
serialization of one log record (Go `encoding/json` with `omitempty` tags
and `MarshalIndent(jsoner, "  ", "  ")`), the JSON-array file append
`saveToFile`, and the level entry points `Info`/`Warn`/`Fatal`/`Panic`.

Go machine-level aspects are modelled as follows: `time.Time` values are
integers counting nanoseconds (the zero value of `time.Time` corresponds
to `0`, matching `IsZero`); the two clock samples taken inside
`logMessage` (`time.Now()` at the duration computation and the formatted
closing timestamp) are explicit parameters; the outcome of the operating
system's file operations is an explicit parameter (`saveResult`); file
contents are strings of characters (every byte position the code
manipulates individually — the trailing `"\n]"` — is ASCII, so character
counts and byte counts agree there).
-/

namespace Gologger

/-- The four level constants of the package (Go `const` block). -/
def INFO : String := "INFO"

/-- Level constant `WARN`. -/
def WARN : String := "WARN"

/-- Level constant `FATAL`. -/
def FATAL : String := "FATAL"

/-- Level constant `PANIC`. -/
def PANIC : String := "PANIC"

/-- A Go `any` value as used for the `FileLog` field: `nil`, a `bool`,
a `string`, or a value of any other dynamic type (`other` carries the
type's name, used by the `%T` format verb in the error message). -/
inductive GoAny where
  | nil : GoAny
  | bool (b : Bool) : GoAny
  | str (s : String) : GoAny
  | other (typeName : String) : GoAny
deriving DecidableEq

/-- The `%T` format verb on an `any` value (`fmt.Errorf` in
`checkSaveLogOption`). `%T` of a nil interface prints `<nil>`. -/
def typeNameOf : GoAny → String
  | GoAny.nil => "<nil>"
  | GoAny.bool _ => "bool"
  | GoAny.str _ => "string"
  | GoAny.other t => t

/-- `LogOptions` (source lines 94–99): optional per-call parameters.
`StartTime` is a `time.Time` modelled as nanoseconds, with `0` the zero
value (`IsZero`). `FileLog` is the `any`-typed file-logging override. -/
structure LogOptions where
  StartTime : Int := 0
  Process : String := ""
  User : String := ""
  FileLog : GoAny := GoAny.nil
deriving DecidableEq

/-- The `logToJSON` struct (source lines 101–108), i.e. the JSON-serializable
log record.  The json tags are: `time`, `level`, `process,omitempty`,
`duration,omitempty`, `user,omitempty`, `message`. Zero value: all fields
empty strings. -/
structure logToJSON where
  ClosingTime : String := ""
  Level : String := ""
  Process : String := ""
  Duration : String := ""
  User : String := ""
  Message : String := ""
deriving DecidableEq

/-- `checkSaveLogOption` (source lines 312–328): decides from the effective
`FileLog` setting whether to save, and to which path.  Returns
`(shouldSave, path, err)`.  A `bool` decides directly (default path); a
non-empty `string` is a custom path; the empty string leaves
`shouldSave = false`; any other dynamic type yields an error. -/
def checkSaveLogOption (fileLogSetting : GoAny) : Bool × String × Option String :=
  match fileLogSetting with
  | GoAny.bool v => (v, "./log.json", none)
  | GoAny.str v =>
      if v ≠ "" then (true, v, none) else (false, "./log.json", none)
  | v =>
      (false, "",
        some ("log will not be saved, invalid file log setting type: " ++ typeNameOf v
          ++ ", expected bool or string"))

/-- The effective file-log setting (source lines 122–126): the per-call
`opts.FileLog` when it is non-nil, otherwise the logger's default. -/
def effectiveFileLog (opts : LogOptions) (defaultFileLog : GoAny) : GoAny :=
  if opts.FileLog ≠ GoAny.nil then opts.FileLog else defaultFileLog

/-- The observable result of one `logMessage` call.  `logParts` is the final
value of the Go `logParts` slice; `suffix` is the final value of the
spinner's `Suffix` (set for the last time at source line 162, before file
handling); `finalMSG` is the final value of `s.FinalMSG`, the line printed
when the spinner stops; `savePath` is `some p` exactly when `saveToFile`
was invoked, with the path it was given. -/
structure LogResult where
  logParts : List String
  jsoner : logToJSON
  suffix : String
  finalMSG : String
  savePath : Option String
deriving DecidableEq

/-- The duration string of lines 147–148:
`fmt.Sprintf("%d ms", currentTime.Sub(opts.StartTime).Milliseconds())`.
`Milliseconds()` is the nanosecond count divided by 10^6, truncated toward
zero (Go integer division). -/
def durationString (opts : LogOptions) (currentTime : Int) : String :=
  toString (Int.tdiv (currentTime - opts.StartTime) 1000000) ++ " ms"

/-- The `logParts` slice as built by lines 136–161: start with
`fmt.Sprintf(" [%s]", level)`, append the process when non-empty, the
duration when `StartTime` is non-zero, the user when non-empty, and
finally the message. -/
def buildLogParts (level message : String) (opts : LogOptions) (currentTime : Int) :
    List String :=
  let logParts0 := [" [" ++ level ++ "]"]
  let logParts1 := if opts.Process ≠ "" then logParts0 ++ [opts.Process] else logParts0
  let logParts2 :=
    if opts.StartTime ≠ 0 then logParts1 ++ [durationString opts currentTime] else logParts1
  let logParts3 := if opts.User ≠ "" then logParts2 ++ [opts.User] else logParts2
  logParts3 ++ [message]

/-- The `jsoner` record as assigned by lines 138–166: each conditional
branch assigns the corresponding field, which otherwise keeps its zero
value `""`. -/
def jsonerOf (level message : String) (opts : LogOptions) (currentTime : Int)
    (closingTimeStr : String) : logToJSON :=
  { ClosingTime := closingTimeStr
    Level := level
    Process := if opts.Process ≠ "" then opts.Process else ""
    Duration := if opts.StartTime ≠ 0 then durationString opts currentTime else ""
    User := if opts.User ≠ "" then opts.User else ""
    Message := message }

/-- `logMessage` (source lines 116–194).  Besides the call arguments
(`level`, `message`, `opts`) and the logger's default setting, the model
takes the environment inputs: `currentTime` is the `time.Now()` sampled at
line 147 for the duration; `closingTimeStr` is
`closingTime.Format("2006-01-02 15:04:05")` from line 165/166;
`saveResult` is the outcome of the `saveToFile` call (`some e` when it
returns an error rendered as `e`, `none` on success), consulted only when
a save is attempted.

Note on line 173: when `checkSaveLogOption` returns an error,
`shouldSaveToFile` is necessarily `false`, so the `" x"` `FinalMSG`
assigned at line 173 is always overwritten by the `" ✓"` assignment of the
`else` branch at line 190; only the appended error text survives, inside
`logParts`.  The model keeps the surviving assignment. -/
def logMessage (level message : String) (opts : LogOptions) (defaultFileLog : GoAny)
    (currentTime : Int) (closingTimeStr : String) (saveResult : Option String) : LogResult :=
  let fileLogSetting := effectiveFileLog opts defaultFileLog
  -- lines 136-166: build the display parts and the record
  let logParts4 := buildLogParts level message opts currentTime
  let jsoner := jsonerOf level message opts currentTime closingTimeStr
  -- line 169: shouldSaveToFile, filePath, err := checkSaveLogOption(fileLogSetting)
  let c := checkSaveLogOption fileLogSetting
  let shouldSave := c.1
  let filePath := c.2.1
  -- lines 170-174: append the option error, if any, to the parts
  let logParts5 :=
    match c.2.2 with
    | some e => logParts4 ++ ["Error: " ++ e]
    | none => logParts4
  if shouldSave then
    match saveResult with
    | some e =>
        -- lines 177-184: save failed; INFO is downgraded to WARN in the
        -- display parts (index 0) and in the record, then the error is appended
        let logParts6 :=
          if level = INFO then logParts5.set 0 (" [" ++ WARN ++ "]") else logParts5
        let jsoner2 := if level = INFO then { jsoner with Level := WARN } else jsoner
        let logParts7 := logParts6 ++ ["Error: " ++ e]
        { logParts := logParts7
          jsoner := jsoner2
          suffix := String.intercalate " | " logParts4
          finalMSG := closingTimeStr ++ " x" ++ String.intercalate " | " logParts7 ++ "\n"
          savePath := some filePath }
    | none =>
        -- lines 185-188: save succeeded
        let logParts6 := logParts5 ++ ["Log saved!"]
        { logParts := logParts6
          jsoner := jsoner
          suffix := String.intercalate " | " logParts4
          finalMSG := closingTimeStr ++ " ✓" ++ String.intercalate " | " logParts6 ++ "\n"
          savePath := some filePath }
  else
    -- lines 189-191: no save attempted
    { logParts := logParts5
      jsoner := jsoner
      suffix := String.intercalate " | " logParts4
      finalMSG := closingTimeStr ++ " ✓" ++ String.intercalate " | " logParts5 ++ "\n"
      savePath := none }

/-- The terminal action a logging entry point performs after logging. -/
inductive TermAction where
  | normal : TermAction
  | exitCode (code : Nat) : TermAction
  | panicMsg (msg : String) : TermAction
deriving DecidableEq

/-- `Logger.Info` (source lines 202–204): log at level INFO, return normally. -/
def Info (defaultFileLog : GoAny) (message : String) (opts : LogOptions)
    (currentTime : Int) (closingTimeStr : String) (saveResult : Option String) :
    LogResult × TermAction :=
  (logMessage INFO message opts defaultFileLog currentTime closingTimeStr saveResult,
    TermAction.normal)

/-- `Logger.Warn` (source lines 211–213): log at level WARN, return normally. -/
def Warn (defaultFileLog : GoAny) (message : String) (opts : LogOptions)
    (currentTime : Int) (closingTimeStr : String) (saveResult : Option String) :
    LogResult × TermAction :=
  (logMessage WARN message opts defaultFileLog currentTime closingTimeStr saveResult,
    TermAction.normal)

/-- `Logger.Fatal` (source lines 221–224): log at level FATAL, then
`os.Exit(1)`. -/
def Fatal (defaultFileLog : GoAny) (message : String) (opts : LogOptions)
    (currentTime : Int) (closingTimeStr : String) (saveResult : Option String) :
    LogResult × TermAction :=
  (logMessage FATAL message opts defaultFileLog currentTime closingTimeStr saveResult,
    TermAction.exitCode 1)

/-- `Logger.Panic` (source lines 232–235): log at level PANIC, then
`panic(message)` — a Go panic carrying exactly the message string,
recoverable by an enclosing `recover()` (as exercised by the package's own
`TestWithPanic`). -/
def Panic (defaultFileLog : GoAny) (message : String) (opts : LogOptions)
    (currentTime : Int) (closingTimeStr : String) (saveResult : Option String) :
    LogResult × TermAction :=
  (logMessage PANIC message opts defaultFileLog currentTime closingTimeStr saveResult,
    TermAction.panicMsg message)

/-- Spec-side description of the ordered display parts (spec §4.1): the
bracketed level, then process if non-empty, then duration if the start
time is non-zero, then user if non-empty, then the message, always last. -/
def displayParts (level message : String) (opts : LogOptions) (currentTime : Int) :
    List String :=
  [" [" ++ level ++ "]"]
    ++ (if opts.Process ≠ "" then [opts.Process] else [])
    ++ (if opts.StartTime ≠ 0 then
          [toString (Int.tdiv (currentTime - opts.StartTime) 1000000) ++ " ms"] else [])
    ++ (if opts.User ≠ "" then [opts.User] else [])
    ++ [message]

/-- The ordered field list of the serialized JSON object for a record,
following the struct tags of `logToJSON` (source lines 101–108):
`encoding/json` emits the fields in struct order, and a field tagged
`omitempty` is left out of the object entirely (not emitted as null) when
its value is the empty string.  `time`, `level` and `message` carry no
`omitempty` and always appear. -/
def marshalFields (j : logToJSON) : List (String × String) :=
  [("time", j.ClosingTime), ("level", j.Level)]
    ++ (if j.Process ≠ "" then [("process", j.Process)] else [])
    ++ (if j.Duration ≠ "" then [("duration", j.Duration)] else [])
    ++ (if j.User ≠ "" then [("user", j.User)] else [])
    ++ [("message", j.Message)]

/-- Lowercase hexadecimal digit characters, as used by `encoding/json`. -/
def hexDigit : Nat → Char
  | 0 => '0' | 1 => '1' | 2 => '2' | 3 => '3'
  | 4 => '4' | 5 => '5' | 6 => '6' | 7 => '7'
  | 8 => '8' | 9 => '9' | 10 => 'a' | 11 => 'b'
  | 12 => 'c' | 13 => 'd' | 14 => 'e' | _ => 'f'

/-- Go `encoding/json` escaping of one character of a string value (the
default encoder, HTML-escaping enabled): `"` and `\` are backslash-escaped;
newline, carriage return and tab use the short escapes; `<`, `>`, `&` and
the remaining control characters below 0x20 become `\u00XX`; U+2028 and
U+2029 become their own backslash-u escapes; every other character is copied as is. -/
def escapeChar (c : Char) : List Char :=
  if c = '"' then ['\\', '"']
  else if c = '\\' then ['\\', '\\']
  else if c = '\n' then ['\\', 'n']
  else if c = '\r' then ['\\', 'r']
  else if c = '\t' then ['\\', 't']
  else if c = '<' ∨ c = '>' ∨ c = '&' then
    ['\\', 'u', '0', '0', hexDigit (c.toNat / 16), hexDigit (c.toNat % 16)]
  else if c.toNat < 32 then
    ['\\', 'u', '0', '0', hexDigit (c.toNat / 16), hexDigit (c.toNat % 16)]
  else if c.toNat = 0x2028 ∨ c.toNat = 0x2029 then
    ['\\', 'u', '2', '0', '2', hexDigit (c.toNat % 16)]
  else [c]

/-- `encoding/json` escaping of a whole character list. -/
def escapeList : List Char → List Char
  | [] => []
  | c :: cs => escapeChar c ++ escapeList cs

/-- One rendered field line of `json.MarshalIndent(jsoner, "  ", "  ")`:
four spaces (prefix + one indent level), the quoted name, a colon and a
space, and the quoted escaped value. -/
def renderFieldChars (f : String × String) : List Char :=
  ' ' :: ' ' :: ' ' :: ' ' :: '"'
    :: (f.1.data ++ '"' :: ':' :: ' ' :: '"' :: escapeList f.2.data ++ ['"'])

/-- The field lines joined with `",\n"`. -/
def renderFieldsChars : List (String × String) → List Char
  | [] => []
  | [f] => renderFieldChars f
  | f :: fs => renderFieldChars f ++ ',' :: '\n' :: renderFieldsChars fs

/-- `json.MarshalIndent(jsoner, "  ", "  ")` on a record: the object opens
with `{`, each field sits on its own line indented by prefix+indent, and
the closing `}` is indented by the prefix alone.  Field order and presence
follow `marshalFields`. -/
def marshalIndent (j : logToJSON) : String :=
  String.mk ('{' :: '\n' :: renderFieldsChars (marshalFields j) ++ ['\n', ' ', ' ', '}'])

/-- The content transformation `saveToFile` (source lines 242–299) applies
to the log file at its path, given the file's current content (a missing
file is created empty first, so absent and empty coincide).  If the file
is empty, write `"[\n  " + jsonData + "\n]"`.  Otherwise the code runs
`Truncate(size-1)` (dropping the final byte, the `]`), then
`Seek(-1, io.SeekEnd)` — which positions one byte *before* the new end —
and writes `",\n  " + jsonData + "\n]"` there, overwriting one more byte
(the `\n` that preceded the `]`).  Net effect on any content of length ≥ 2:
drop the last two characters, then append.  (Contents reachable through
`saveToFile` always end in the two ASCII bytes `"\n]"`, so character and
byte positions agree; a 1-byte file, on which the `Seek` would fail, is
not reachable.) -/
def saveToFileContent (j : logToJSON) (content : String) : String :=
  if content = "" then "[\n  " ++ marshalIndent j ++ "\n]"
  else String.mk (content.data.dropLast.dropLast) ++ (",\n  " ++ marshalIndent j ++ "\n]")

/-- The file content produced by appending each record of `rs` in order via
`saveToFile` starting from a fresh (absent) path. -/
def appendAll (rs : List logToJSON) : String :=
  rs.foldl (fun content j => saveToFileContent j content) ""

/-- JSON insignificant whitespace. -/
def isWsChar (c : Char) : Bool :=
  c == ' ' || c == '\n' || c == '\t' || c == '\r'

/-- Skip insignificant whitespace. -/
def skipWs (cs : List Char) : List Char :=
  cs.dropWhile isWsChar

/-- Value of one hexadecimal digit character. -/
def hexDigitVal (c : Char) : Option Nat :=
  if '0' ≤ c ∧ c ≤ '9' then some (c.toNat - 48)
  else if 'a' ≤ c ∧ c ≤ 'f' then some (c.toNat - 87)
  else if 'A' ≤ c ∧ c ≤ 'F' then some (c.toNat - 55)
  else none

/-- Decode one JSON string escape (the characters after a `\`). -/
def parseEscape : List Char → Option (Char × List Char)
  | 'u' :: h1 :: h2 :: h3 :: h4 :: rest =>
    (match hexDigitVal h1, hexDigitVal h2, hexDigitVal h3, hexDigitVal h4 with
     | some a, some b, some c, some d =>
         some (Char.ofNat (((a * 16 + b) * 16 + c) * 16 + d), rest)
     | _, _, _, _ => none)
  | c :: rest =>
    if c = '"' then some ('"', rest)
    else if c = '\\' then some ('\\', rest)
    else if c = '/' then some ('/', rest)
    else if c = 'n' then some ('\n', rest)
    else if c = 'r' then some ('\r', rest)
    else if c = 't' then some ('\t', rest)
    else if c = 'b' then some (Char.ofNat 8, rest)
    else if c = 'f' then some (Char.ofNat 12, rest)
    else none
  | [] => none

/-- Parse the body of a JSON string literal (after the opening quote), up
to and including the closing quote; fuelled by the input length. -/
def parseStringAux : Nat → List Char → Option (List Char × List Char)
  | 0, _ => none
  | _, [] => none
  | fuel + 1, c :: rest =>
    if c = '"' then some ([], rest)
    else if c = '\\' then
      match parseEscape rest with
      | none => none
      | some (d, rest2) =>
        match parseStringAux fuel rest2 with
        | some (s, r) => some (d :: s, r)
        | none => none
    else
      match parseStringAux fuel rest with
      | some (s, r) => some (c :: s, r)
      | none => none

/-- Parse a JSON string literal body with sufficient fuel. -/
def parseStringLit (cs : List Char) : Option (String × List Char) :=
  match parseStringAux (cs.length + 1) cs with
  | some (s, r) => some (String.mk s, r)
  | none => none

/-- Parse one `"name": "value"` member (string-valued, as all fields of a
log record are). -/
def parseField (cs : List Char) : Option ((String × String) × List Char) :=
  match skipWs cs with
  | '"' :: cs1 =>
    (match parseStringLit cs1 with
     | some (name, cs2) =>
       (match skipWs cs2 with
        | ':' :: cs3 =>
          (match skipWs cs3 with
           | '"' :: cs4 =>
             (match parseStringLit cs4 with
              | some (v, cs5) => some ((name, v), cs5)
              | none => none)
           | _ => none)
        | _ => none)
     | none => none)
  | _ => none

/-- Parse the members of a JSON object (at least one), up to and including
the closing brace. -/
def parseFieldsAux : Nat → List Char → Option (List (String × String) × List Char)
  | 0, _ => none
  | fuel + 1, cs =>
    match parseField cs with
    | none => none
    | some (f, rest) =>
      match skipWs rest with
      | ',' :: rest2 =>
        (match parseFieldsAux fuel rest2 with
         | some (fs, r) => some (f :: fs, r)
         | none => none)
      | '}' :: rest2 => some ([f], rest2)
      | _ => none

/-- Extract one optional field value: if the next member carries the given
name take its value, otherwise the empty string (the omitted value). -/
def takeOpt (name : String) : List (String × String) → String × List (String × String)
  | (n, v) :: r => if n = name then (v, r) else ("", (n, v) :: r)
  | [] => ("", [])

/-- Rebuild a `logToJSON` record from a parsed member list: `time` and
`level` first, then optional `process`, `duration`, `user`, then
`message` last; anything else is rejected. -/
def recordOfFields (fs : List (String × String)) : Option logToJSON :=
  match fs with
  | ("time", t) :: ("level", l) :: rest =>
    let pr := takeOpt "process" rest
    let du := takeOpt "duration" pr.2
    let us := takeOpt "user" du.2
    (match us.2 with
     | [("message", m)] =>
         some { ClosingTime := t, Level := l, Process := pr.1, Duration := du.1,
                User := us.1, Message := m }
     | _ => none)
  | _ => none

/-- Parse one record object: `{`, its members, `}`. -/
def parseRecordChars (cs : List Char) : Option (logToJSON × List Char) :=
  match skipWs cs with
  | '{' :: cs1 =>
    (match parseFieldsAux (cs1.length + 1) cs1 with
     | some (fs, rest) =>
       (match recordOfFields fs with
        | some j => some (j, rest)
        | none => none)
     | none => none)
  | _ => none

/-- Parse the element list of the top-level JSON array, up to and including
the closing bracket. -/
def parseItemsAux : Nat → List Char → Option (List logToJSON × List Char)
  | 0, _ => none
  | fuel + 1, cs =>
    match skipWs cs with
    | ']' :: rest => some ([], rest)
    | cs1 =>
      match parseRecordChars cs1 with
      | none => none
      | some (j, rest) =>
        match skipWs rest with
        | ',' :: rest2 =>
          (match parseItemsAux fuel rest2 with
           | some (js, r) => some (j :: js, r)
           | none => none)
        | ']' :: rest2 => some ([j], rest2)
        | _ => none

/-- Parse a whole log file: a single JSON array of record objects, with
nothing but whitespace after it.  Returns the records in file order. -/
def parseLogFile (s : String) : Option (List logToJSON) :=
  match skipWs s.data with
  | '[' :: cs =>
    (match parseItemsAux (cs.length + 1) cs with
     | some (js, rest) => if skipWs rest = [] then some js else none
     | none => none)
  | _ => none

/-- The record items as laid out in the file: first record after `"[\n  "`,
later records separated by `",\n  "`. -/
def renderItemsChars : List logToJSON → List Char
  | [] => []
  | [j] => (marshalIndent j).data
  | j :: js => (marshalIndent j).data ++ ',' :: '\n' :: ' ' :: ' ' :: renderItemsChars js

/-- Record one directory as existing (no duplicates). -/
def addDir (ds : List (List String)) (d : List String) : List (List String) :=
  if d ∈ ds then ds else ds ++ [d]

/-- Modelled from the spec: `os.MkdirAll(dir, 0755)` (Go standard library,
called by `saveToFile` at source line 245) "creates a directory named
path, along with any necessary parents", and "does nothing and returns
nil" when the directory already exists — i.e. it ensures every prefix of
the directory path exists, idempotently.  Paths are modelled as component
lists; the empty list is the current directory. -/
def mkdirAll (ds : List (List String)) (dir : List String) : List (List String) :=
  dir.inits.foldl addDir ds

/-- A file system: the set of existing directories and the files with
their contents. -/
structure FS where
  dirs : List (List String) := []
  files : List (List String × String) := []
deriving DecidableEq

/-- Content of a file, if present. -/
def lookupFile (fs : FS) (p : List String) : Option String :=
  (fs.files.find? (fun e => e.1 == p)).map (fun e => e.2)

/-- Write (or overwrite) a file's content. -/
def writeFile (fs : FS) (p : List String) (c : String) : FS :=
  { fs with files := (fs.files.filter (fun e => !(e.1 == p))) ++ [(p, c)] }

/-- `saveToFile` (source lines 242–299) over the file-system model: ensure
the parent directory of the path exists (`filepath.Dir` is the path minus
its last component; `os.MkdirAll` creates it recursively), create the file
empty when absent, and rewrite it with the appended-record content
(`saveToFileContent`).  Creating/opening the file fails when its parent
directory does not exist. -/
def saveToFile (fs : FS) (j : logToJSON) (filePath : List String) :
    FS × Except String Unit :=
  let dir := filePath.dropLast
  let fs1 : FS := { fs with dirs := mkdirAll fs.dirs dir }
  if dir = [] ∨ dir ∈ fs1.dirs then
    let content := (lookupFile fs1 filePath).getD ""
    (writeFile fs1 filePath (saveToFileContent j content), Except.ok ())
  else (fs1, Except.error "file creation failed")

lemma string_append_ms_ne_empty (s : String) : s ++ " ms" ≠ "" := by
  intro h
  have hd := congrArg String.data h
  rw [String.data_append] at hd
  simpa using congrArg List.length hd

lemma hexDigitVal_hexDigit (n : Nat) (h : n < 16) :
    hexDigitVal (hexDigit n) = some n := by
  interval_cases n <;> rfl

lemma escapeChar_length_pos (c : Char) : 1 ≤ (escapeChar c).length := by
  unfold escapeChar
  split_ifs <;> simp

lemma parseEscape_hex (a b : Nat) (ha : a < 16) (hb : b < 16) (tail : List Char) :
    parseEscape ('u' :: '0' :: '0' :: hexDigit a :: hexDigit b :: tail)
      = some (Char.ofNat (a * 16 + b), tail) := by
  have h0 : hexDigitVal '0' = some 0 := rfl
  have hva := hexDigitVal_hexDigit a ha
  have hvb := hexDigitVal_hexDigit b hb
  simp only [parseEscape, h0, hva, hvb]
  norm_num

/-- One parser step consumes exactly the escape of one character. -/
lemma parseStringAux_step (c : Char) (tail : List Char) (fuel : Nat) :
    parseStringAux (fuel + 1) (escapeChar c ++ tail)
      = (match parseStringAux fuel tail with
         | some (s, r) => some (c :: s, r)
         | none => none) := by
  unfold escapeChar
  split_ifs with h1 h2 h3 h4 h5 h6 h7 h8
  · subst h1; rfl
  · subst h2; rfl
  · subst h3; rfl
  · subst h4; rfl
  · subst h5; rfl
  · rcases h6 with h | h | h <;> subst h <;> rfl
  · show (match parseEscape ('u' :: '0' :: '0' :: hexDigit (c.toNat / 16)
          :: hexDigit (c.toNat % 16) :: tail) with
       | none => none
       | some (d, rest2) =>
         match parseStringAux fuel rest2 with
         | some (s, r) => some (d :: s, r)
         | none => none) = _
    rw [parseEscape_hex _ _ (by omega) (Nat.mod_lt _ (by norm_num))]
    have harith : c.toNat / 16 * 16 + c.toNat % 16 = c.toNat := by
      rw [Nat.mul_comm]
      exact Nat.div_add_mod _ _
    rw [harith, Char.ofNat_toNat]
  · have hc : c = Char.ofNat 0x2028 ∨ c = Char.ofNat 0x2029 := by
      rcases h8 with h | h
      · exact Or.inl (by rw [← Char.ofNat_toNat c, h])
      · exact Or.inr (by rw [← Char.ofNat_toNat c, h])
    rcases hc with h | h <;> subst h <;> rfl
  · show parseStringAux (fuel + 1) (c :: tail) = _
    simp only [parseStringAux]
    rw [if_neg h1, if_neg h2]

/-- Round trip of the string-literal parser against the escaper. -/
lemma parseStringAux_escape (s : List Char) : ∀ (fuel : Nat) (rest : List Char),
    (escapeList s).length < fuel →
    parseStringAux fuel (escapeList s ++ '"' :: rest) = some (s, rest) := by
  induction s with
  | nil =>
    intro fuel rest h
    obtain ⟨f, rfl⟩ : ∃ f, fuel = f + 1 := ⟨fuel - 1, by omega⟩
    rfl
  | cons c s ih =>
    intro fuel rest h
    have hc : 1 ≤ (escapeChar c).length := escapeChar_length_pos c
    have hlen : (escapeList (c :: s)).length
        = (escapeChar c).length + (escapeList s).length := by
      simp [escapeList]
    obtain ⟨f, rfl⟩ : ∃ f, fuel = f + 1 := ⟨fuel - 1, by omega⟩
    have hsplit : escapeList (c :: s) ++ '"' :: rest
        = escapeChar c ++ (escapeList s ++ '"' :: rest) := by
      simp [escapeList]
    rw [hsplit, parseStringAux_step, ih f rest (by omega)]

lemma parseStringLit_escape (s : List Char) (rest : List Char) :
    parseStringLit (escapeList s ++ '"' :: rest) = some (String.mk s, rest) := by
  unfold parseStringLit
  rw [parseStringAux_escape s _ rest (by simp [List.length_append]; omega)]

/-- A string whose characters need no escaping parses back to itself. -/
lemma parseStringLit_plain (k : String) (rest : List Char)
    (hk : escapeList k.data = k.data) :
    parseStringLit (k.data ++ '"' :: rest) = some (k, rest) := by
  rw [← hk, parseStringLit_escape]

lemma skipWs_cons (c : Char) (l : List Char) :
    skipWs (c :: l) = if isWsChar c then skipWs l else c :: l := by
  simp [skipWs, List.dropWhile_cons]

/-- One `"name": "value"` member parses back from its rendering. -/
lemma parseField_render (f : String × String) (rest : List Char)
    (hk : escapeList f.1.data = f.1.data) :
    parseField (renderFieldChars f ++ rest) = some (f, rest) := by
  obtain ⟨k, v⟩ := f
  have hshape : renderFieldChars (k, v) ++ rest
      = ' ' :: ' ' :: ' ' :: ' ' :: '"'
          :: (k.data ++ '"' :: (':' :: ' ' :: '"' :: (escapeList v.data ++ '"' :: rest))) := by
    simp [renderFieldChars, List.append_assoc]
  rw [hshape]
  simp [parseField, skipWs_cons, isWsChar, parseStringLit_plain k _ hk,
    parseStringLit_escape]

lemma parseField_ws (c : Char) (l : List Char) (h : isWsChar c = true) :
    parseField (c :: l) = parseField l := by
  unfold parseField
  rw [show skipWs (c :: l) = skipWs l by simp [skipWs, List.dropWhile_cons, h]]

lemma parseFieldsAux_ws (fuel : Nat) (c : Char) (l : List Char) (h : isWsChar c = true) :
    parseFieldsAux fuel (c :: l) = parseFieldsAux fuel l := by
  cases fuel with
  | zero => rfl
  | succ f => simp only [parseFieldsAux, parseField_ws c l h]

lemma renderFieldsChars_length :
    ∀ (fs : List (String × String)), fs.length ≤ (renderFieldsChars fs).length
  | [] => by simp [renderFieldsChars]
  | [f] => by simp [renderFieldsChars, renderFieldChars]
  | f :: g :: gs => by
      have ih := renderFieldsChars_length (g :: gs)
      simp only [renderFieldsChars, renderFieldChars, List.length_cons,
        List.length_append] at ih ⊢
      omega

/-- A rendered member list (followed by the closing-brace line) parses back
to itself. -/
lemma parseFieldsAux_render :
    ∀ (fs : List (String × String)) (fuel : Nat) (rest : List Char),
    fs ≠ [] → fs.length ≤ fuel →
    (∀ f ∈ fs, escapeList (Prod.fst f).data = (Prod.fst f).data) →
    parseFieldsAux fuel (renderFieldsChars fs ++ '\n' :: ' ' :: ' ' :: '}' :: rest)
      = some (fs, rest)
  | [], _, _, hne, _, _ => absurd rfl hne
  | [f], fuel, rest, _, hfuel, hnames => by
      obtain ⟨m, rfl⟩ : ∃ m, fuel = m + 1 :=
        ⟨fuel - 1, by simp only [List.length_cons, List.length_nil] at hfuel; omega⟩
      have hf : renderFieldsChars [f] = renderFieldChars f := rfl
      rw [hf]
      simp only [parseFieldsAux]
      simp only [parseField_render f _ (hnames f (by simp))]
      simp [skipWs_cons, isWsChar]
  | f :: g :: gs, fuel, rest, _, hfuel, hnames => by
      obtain ⟨m, rfl⟩ : ∃ m, fuel = m + 1 :=
        ⟨fuel - 1, by simp only [List.length_cons] at hfuel; omega⟩
      have hshape : renderFieldsChars (f :: g :: gs) ++ '\n' :: ' ' :: ' ' :: '}' :: rest
          = renderFieldChars f
              ++ (',' :: '\n'
                :: (renderFieldsChars (g :: gs) ++ '\n' :: ' ' :: ' ' :: '}' :: rest)) := by
        simp [renderFieldsChars, List.append_assoc]
      rw [hshape]
      simp only [parseFieldsAux]
      simp only [parseField_render f _ (hnames f (by simp))]
      have hm : (g :: gs).length ≤ m := by
        simp only [List.length_cons] at hfuel ⊢
        omega
      have hsk : skipWs (',' :: '\n'
            :: (renderFieldsChars (g :: gs) ++ '\n' :: ' ' :: ' ' :: '}' :: rest))
          = ',' :: '\n'
              :: (renderFieldsChars (g :: gs) ++ '\n' :: ' ' :: ' ' :: '}' :: rest) := by
        simp [skipWs_cons, isWsChar]
      rw [hsk]
      simp only [parseFieldsAux_ws m '\n' _ rfl]
      rw [parseFieldsAux_render (g :: gs) m rest (by simp) hm
        (fun x hx => hnames x (by simp [hx]))]

lemma marshalFields_ne_nil (j : logToJSON) : marshalFields j ≠ [] := by
  simp [marshalFields]

/-- Every serialized field name is escape-free. -/
lemma marshalFields_names (j : logToJSON) :
    ∀ f ∈ marshalFields j, escapeList (Prod.fst f).data = (Prod.fst f).data := by
  intro f hf
  simp only [marshalFields] at hf
  split_ifs at hf <;> fin_cases hf <;> rfl

/-- Rebuilding a record from its own serialized member list restores it. -/
lemma recordOfFields_marshalFields (j : logToJSON) :
    recordOfFields (marshalFields j) = some j := by
  obtain ⟨t, l, p, d, u, m⟩ := j
  by_cases hp : p = "" <;> by_cases hd : d = "" <;> by_cases hu : u = "" <;>
    simp [marshalFields, recordOfFields, takeOpt, hp, hd, hu]

lemma marshalIndent_data (j : logToJSON) :
    (marshalIndent j).data
      = '{' :: '\n' :: renderFieldsChars (marshalFields j) ++ ['\n', ' ', ' ', '}'] := rfl

/-- A rendered record object parses back to the record. -/
lemma parseRecordChars_render (j : logToJSON) (rest : List Char) :
    parseRecordChars ((marshalIndent j).data ++ rest) = some (j, rest) := by
  have hdata : (marshalIndent j).data ++ rest
      = '{' :: ('\n'
          :: (renderFieldsChars (marshalFields j)
            ++ '\n' :: ' ' :: ' ' :: '}' :: rest)) := by
    rw [marshalIndent_data]
    simp [List.append_assoc]
  rw [hdata]
  simp only [parseRecordChars]
  have hsk : skipWs ('{' :: ('\n'
        :: (renderFieldsChars (marshalFields j) ++ '\n' :: ' ' :: ' ' :: '}' :: rest)))
      = '{' :: ('\n'
          :: (renderFieldsChars (marshalFields j)
            ++ '\n' :: ' ' :: ' ' :: '}' :: rest)) := by
    simp [skipWs_cons, isWsChar]
  rw [hsk]
  have hlen : (marshalFields j).length
      ≤ ('\n' :: (renderFieldsChars (marshalFields j)
          ++ '\n' :: ' ' :: ' ' :: '}' :: rest)).length + 1 := by
    have := renderFieldsChars_length (marshalFields j)
    simp only [List.length_cons, List.length_append]
    omega
  simp only [parseFieldsAux_ws _ '\n' _ rfl]
  rw [parseFieldsAux_render (marshalFields j) _ rest (marshalFields_ne_nil j)
    (by simpa using hlen) (marshalFields_names j)]
  simp only [recordOfFields_marshalFields]

lemma renderItemsChars_length :
    ∀ (rs : List logToJSON), rs.length ≤ (renderItemsChars rs).length
  | [] => by simp [renderItemsChars]
  | [j] => by
      rw [show renderItemsChars [j] = (marshalIndent j).data from rfl,
        marshalIndent_data]
      simp
  | j :: k :: ks => by
      have ih := renderItemsChars_length (k :: ks)
      simp only [renderItemsChars, marshalIndent_data, List.length_cons,
        List.length_append] at ih ⊢
      omega

lemma parseItemsAux_ws (fuel : Nat) (c : Char) (l : List Char) (h : isWsChar c = true) :
    parseItemsAux fuel (c :: l) = parseItemsAux fuel l := by
  cases fuel with
  | zero => rfl
  | succ f =>
      simp only [parseItemsAux]
      rw [show skipWs (c :: l) = skipWs l by simp [skipWs, List.dropWhile_cons, h]]

/-- Unfolding `parseItemsAux` on an input that starts a record object. -/
lemma parseItemsAux_brace (fuel : Nat) (l : List Char) :
    parseItemsAux (fuel + 1) ('{' :: l)
      = (match parseRecordChars ('{' :: l) with
         | none => none
         | some (j, rest) =>
           match skipWs rest with
           | ',' :: rest2 =>
             (match parseItemsAux fuel rest2 with
              | some (js, r) => some (j :: js, r)
              | none => none)
           | ']' :: rest2 => some ([j], rest2)
           | _ => none) := rfl

/-- A rendered item list (followed by the closing-bracket line) parses back
to itself. -/
lemma parseItemsAux_render :
    ∀ (rs : List logToJSON) (fuel : Nat) (rest : List Char),
    rs ≠ [] → rs.length ≤ fuel →
    parseItemsAux fuel (renderItemsChars rs ++ '\n' :: ']' :: rest)
      = some (rs, rest)
  | [], _, _, hne, _ => absurd rfl hne
  | [j], fuel, rest, _, hfuel => by
      obtain ⟨m, rfl⟩ : ∃ m, fuel = m + 1 :=
        ⟨fuel - 1, by simp only [List.length_cons, List.length_nil] at hfuel; omega⟩
      have hj : renderItemsChars [j] = (marshalIndent j).data := rfl
      rw [hj]
      have hnorm : (marshalIndent j).data ++ '\n' :: ']' :: rest
          = '{' :: ('\n' :: (renderFieldsChars (marshalFields j)
              ++ '\n' :: ' ' :: ' ' :: '}' :: ('\n' :: ']' :: rest))) := by
        rw [marshalIndent_data]
        simp [List.append_assoc]
      rw [hnorm, parseItemsAux_brace, ← hnorm, parseRecordChars_render]
      simp [skipWs_cons, isWsChar]
  | j :: k :: ks, fuel, rest, _, hfuel => by
      obtain ⟨m, rfl⟩ : ∃ m, fuel = m + 1 :=
        ⟨fuel - 1, by simp only [List.length_cons] at hfuel; omega⟩
      have hshape : renderItemsChars (j :: k :: ks) ++ '\n' :: ']' :: rest
          = (marshalIndent j).data
              ++ (',' :: '\n' :: ' ' :: ' '
                :: (renderItemsChars (k :: ks) ++ '\n' :: ']' :: rest)) := by
        simp [renderItemsChars, List.append_assoc]
      rw [hshape]
      have hnorm : (marshalIndent j).data
            ++ (',' :: '\n' :: ' ' :: ' '
              :: (renderItemsChars (k :: ks) ++ '\n' :: ']' :: rest))
          = '{' :: ('\n' :: (renderFieldsChars (marshalFields j)
              ++ '\n' :: ' ' :: ' ' :: '}'
                :: (',' :: '\n' :: ' ' :: ' '
                  :: (renderItemsChars (k :: ks) ++ '\n' :: ']' :: rest)))) := by
        rw [marshalIndent_data]
        simp [List.append_assoc]
      rw [hnorm, parseItemsAux_brace, ← hnorm, parseRecordChars_render]
      have hm : (k :: ks).length ≤ m := by
        simp only [List.length_cons] at hfuel ⊢
        omega
      have hsk : skipWs (',' :: '\n' :: ' ' :: ' '
            :: (renderItemsChars (k :: ks) ++ '\n' :: ']' :: rest))
          = ',' :: '\n' :: ' ' :: ' '
              :: (renderItemsChars (k :: ks) ++ '\n' :: ']' :: rest) := by
        simp [skipWs_cons, isWsChar]
      simp only [hsk]
      simp only [parseItemsAux_ws m '\n' _ rfl, parseItemsAux_ws m ' ' _ rfl]
      rw [parseItemsAux_render (k :: ks) m rest (by simp) hm]

lemma appendAll_snoc (rs : List logToJSON) (j : logToJSON) :
    appendAll (rs ++ [j]) = saveToFileContent j (appendAll rs) := by
  simp [appendAll, List.foldl_append]

lemma dropLast_two_concat (u : List Char) :
    (u ++ ['\n', ']']).dropLast.dropLast = u := by
  rw [show u ++ ['\n', ']'] = (u ++ ['\n']) ++ [']'] by simp,
    List.dropLast_concat, List.dropLast_concat]

lemma renderItemsChars_snoc :
    ∀ (l : List logToJSON) (j : logToJSON), l ≠ [] →
    renderItemsChars (l ++ [j])
      = renderItemsChars l ++ ',' :: '\n' :: ' ' :: ' ' :: (marshalIndent j).data
  | [], _, hne => absurd rfl hne
  | [k], j, _ => by simp [renderItemsChars]
  | k :: k2 :: ks, j, _ => by
      have ih := renderItemsChars_snoc (k2 :: ks) j (by simp)
      simp only [List.cons_append, List.append_eq, renderItemsChars] at ih ⊢
      rw [ih]
      simp [List.append_assoc]

/-- The file content after `n ≥ 1` appends: the records in order inside one
JSON array. -/
lemma appendAll_data (rs : List logToJSON) (h : rs ≠ []) :
    (appendAll rs).data
      = '[' :: '\n' :: ' ' :: ' ' :: (renderItemsChars rs ++ ['\n', ']']) := by
  induction rs using List.reverseRecOn with
  | nil => exact absurd rfl h
  | append_singleton l j ih =>
      rcases eq_or_ne l [] with rfl | hl
      · show (saveToFileContent j (appendAll [])).data = _
        simp [appendAll, saveToFileContent, String.data_append, renderItemsChars,
          marshalIndent]
      · have hdata := ih hl
        have hne : appendAll l ≠ "" := by
          intro hcon
          rw [hcon] at hdata
          simp at hdata
        rw [appendAll_snoc, saveToFileContent, if_neg hne]
        rw [String.data_append, String.data_append]
        have hsplit : (appendAll l).data
            = ('[' :: '\n' :: ' ' :: ' ' :: renderItemsChars l) ++ ['\n', ']'] := by
          rw [hdata]
          simp
        rw [hsplit, dropLast_two_concat]
        show ('[' :: '\n' :: ' ' :: ' ' :: renderItemsChars l)
            ++ ((",\n  " ++ marshalIndent j).data ++ "\n]".data) = _
        rw [String.data_append]
        rw [renderItemsChars_snoc l j hl]
        show _ ++ ((',' :: '\n' :: ' ' :: ' ' :: []) ++ (marshalIndent j).data
            ++ ('\n' :: ']' :: [])) = _
        simp [List.append_assoc]

/-- The sequentially built parts list equals its spec-side description. -/
lemma buildLogParts_eq_displayParts (level message : String) (opts : LogOptions)
    (currentTime : Int) :
    buildLogParts level message opts currentTime
      = displayParts level message opts currentTime := by
  unfold buildLogParts displayParts durationString
  by_cases hp : opts.Process = "" <;> by_cases hs : opts.StartTime = 0 <;>
    by_cases hu : opts.User = "" <;> simp [hp, hs, hu]

/-- The spinner suffix is the `" | "`-join of the built parts, in every
branch of `logMessage`. -/
lemma logMessage_suffix (level message : String) (opts : LogOptions)
    (defaultFileLog : GoAny) (currentTime : Int) (closingTimeStr : String)
    (saveResult : Option String) :
    (logMessage level message opts defaultFileLog currentTime closingTimeStr
        saveResult).suffix
      = String.intercalate " | " (buildLogParts level message opts currentTime) := by
  unfold logMessage
  cases saveResult <;> simp only [] <;> split <;> rfl

/-- When `checkSaveLogOption` decides to save, it reports no error. -/
lemma checkSaveLogOption_err_of_save (x : GoAny)
    (h : (checkSaveLogOption x).1 = true) : (checkSaveLogOption x).2.2 = none := by
  cases x with
  | nil => simp [checkSaveLogOption] at h
  | bool b => rfl
  | str s =>
      by_cases hs : s = ""
      · simp [checkSaveLogOption, hs] at h
      · simp [checkSaveLogOption, hs]
  | other t => simp [checkSaveLogOption] at h

/-- `logMessage` when no save is attempted (`shouldSaveToFile = false`). -/
lemma logMessage_noSave (level message : String) (opts : LogOptions)
    (defaultFileLog : GoAny) (currentTime : Int) (closingTimeStr : String)
    (saveResult : Option String)
    (h : (checkSaveLogOption (effectiveFileLog opts defaultFileLog)).1 = false) :
    logMessage level message opts defaultFileLog currentTime closingTimeStr saveResult
      = (let logParts5 :=
           match (checkSaveLogOption (effectiveFileLog opts defaultFileLog)).2.2 with
           | some e => buildLogParts level message opts currentTime ++ ["Error: " ++ e]
           | none => buildLogParts level message opts currentTime
         { logParts := logParts5
           jsoner := jsonerOf level message opts currentTime closingTimeStr
           suffix :=
             String.intercalate " | " (buildLogParts level message opts currentTime)
           finalMSG :=
             closingTimeStr ++ " ✓" ++ String.intercalate " | " logParts5 ++ "\n"
           savePath := none }) := by
  unfold logMessage
  simp only [h, Bool.false_eq_true, if_false]

/-- `logMessage` when a save is attempted and fails. -/
lemma logMessage_saveFail (level message : String) (opts : LogOptions)
    (defaultFileLog : GoAny) (currentTime : Int) (closingTimeStr : String) (e : String)
    (h : (checkSaveLogOption (effectiveFileLog opts defaultFileLog)).1 = true) :
    logMessage level message opts defaultFileLog currentTime closingTimeStr (some e)
      = (let logParts6 :=
           if level = INFO then
             (buildLogParts level message opts currentTime).set 0 (" [" ++ WARN ++ "]")
           else buildLogParts level message opts currentTime
         let logParts7 := logParts6 ++ ["Error: " ++ e]
         { logParts := logParts7
           jsoner :=
             if level = INFO then
               { jsonerOf level message opts currentTime closingTimeStr with Level := WARN }
             else jsonerOf level message opts currentTime closingTimeStr
           suffix :=
             String.intercalate " | " (buildLogParts level message opts currentTime)
           finalMSG :=
             closingTimeStr ++ " x" ++ String.intercalate " | " logParts7 ++ "\n"
           savePath :=
             some (checkSaveLogOption (effectiveFileLog opts defaultFileLog)).2.1 }) := by
  unfold logMessage
  simp only [h, if_true, checkSaveLogOption_err_of_save _ h]

/-- `logMessage` when a save is attempted and succeeds. -/
lemma logMessage_saveOk (level message : String) (opts : LogOptions)
    (defaultFileLog : GoAny) (currentTime : Int) (closingTimeStr : String)
    (h : (checkSaveLogOption (effectiveFileLog opts defaultFileLog)).1 = true) :
    logMessage level message opts defaultFileLog currentTime closingTimeStr none
      = (let logParts6 := buildLogParts level message opts currentTime ++ ["Log saved!"]
         { logParts := logParts6
           jsoner := jsonerOf level message opts currentTime closingTimeStr
           suffix :=
             String.intercalate " | " (buildLogParts level message opts currentTime)
           finalMSG :=
             closingTimeStr ++ " ✓" ++ String.intercalate " | " logParts6 ++ "\n"
           savePath :=
             some (checkSaveLogOption (effectiveFileLog opts defaultFileLog)).2.1 }) := by
  unfold logMessage
  simp only [h, if_true, checkSaveLogOption_err_of_save _ h]

section ClaimTheorems

variable (level message : String) (opts : LogOptions) (defaultFileLog : GoAny)
variable (currentTime : Int) (closingTimeStr : String) (saveResult : Option String)

/-- **C2.** For every level, message, and options record, the display line
built by `logMessage` consists of the ordered parts: the bracketed level
first, then the process name if non-empty, then the duration if
`StartTime` is non-zero (formatted `"<N> ms"`), then the user if
non-empty, then the message always last, joined with `" | "`; and (in the
plain case, file logging disabled by the per-call option) the final
printed line is that join prefixed with the closing timestamp and the
leading marker character `✓`. -/
theorem spec_C2 :
    (logMessage level message opts defaultFileLog currentTime closingTimeStr
        saveResult).suffix
      = String.intercalate " | " (displayParts level message opts currentTime)
    ∧ (opts.FileLog = GoAny.bool false →
        (logMessage level message opts defaultFileLog currentTime closingTimeStr
            saveResult).finalMSG
          = closingTimeStr ++ " ✓"
              ++ String.intercalate " | " (displayParts level message opts currentTime)
              ++ "\n") := by
  constructor
  · rw [logMessage_suffix, buildLogParts_eq_displayParts]
  · intro hfl
    have heff : effectiveFileLog opts defaultFileLog = GoAny.bool false := by
      simp [effectiveFileLog, hfl]
    unfold logMessage
    rw [heff]
    simp only [checkSaveLogOption, if_false, Bool.false_eq_true, ite_false]
    rw [buildLogParts_eq_displayParts]

/-- The built parts, in cons form: the bracketed level first. -/
lemma buildLogParts_cons :
    buildLogParts level message opts currentTime
      = (" [" ++ level ++ "]")
          :: ((if opts.Process ≠ "" then [opts.Process] else [])
            ++ (if opts.StartTime ≠ 0 then [durationString opts currentTime] else [])
            ++ ((if opts.User ≠ "" then [opts.User] else []) ++ [message])) := by
  rw [buildLogParts_eq_displayParts]
  simp [displayParts, durationString, List.append_assoc]

/-- The message is always among the built parts. -/
lemma message_mem_buildLogParts :
    message ∈ buildLogParts level message opts currentTime := by
  rw [buildLogParts_cons]
  simp

/-- The record produced by `logMessage` differs from the formatter's record
only, possibly, in its `Level` field (the INFO→WARN downgrade). -/
lemma logMessage_jsoner_eta :
    (logMessage level message opts defaultFileLog currentTime closingTimeStr
        saveResult).jsoner
      = { jsonerOf level message opts currentTime closingTimeStr with
          Level := (logMessage level message opts defaultFileLog currentTime
            closingTimeStr saveResult).jsoner.Level } := by
  unfold logMessage
  cases saveResult <;> simp only [] <;> split <;> (try split) <;> rfl

/-- `saveToFile` is invoked exactly when `checkSaveLogOption` says so, with
the path it returned. -/
lemma logMessage_savePath :
    (logMessage level message opts defaultFileLog currentTime closingTimeStr
        saveResult).savePath
      = (if (checkSaveLogOption (effectiveFileLog opts defaultFileLog)).1 = true
          then some (checkSaveLogOption (effectiveFileLog opts defaultFileLog)).2.1
          else none) := by
  unfold logMessage
  cases saveResult <;> simp only [] <;> split <;> simp_all

/-- The serialized field names do not depend on the `Level` value. -/
lemma marshalFields_fst_level_irrel (j : logToJSON) (L : String) :
    (marshalFields { j with Level := L }).map Prod.fst
      = (marshalFields j).map Prod.fst := by
  simp only [marshalFields]
  split_ifs <;> simp_all

/-- The duration string is never empty. -/
lemma durationString_ne_empty (opts : LogOptions) (currentTime : Int) :
    durationString opts currentTime ≠ "" :=
  string_append_ms_ne_empty _

/-- **C2 witness.** -/
theorem spec_C2_witness :
    (logMessage INFO "hello"
        { StartTime := 1000000, Process := "P", User := "U", FileLog := GoAny.bool false }
        (GoAny.bool true) 251000000 "2024-01-01 00:00:00" none).finalMSG
      = "2024-01-01 00:00:00 ✓ [INFO] | P | 250 ms | U | hello\n" := by
  have h := spec_C2 INFO "hello"
    { StartTime := 1000000, Process := "P", User := "U", FileLog := GoAny.bool false }
    (GoAny.bool true) 251000000 "2024-01-01 00:00:00" none
  rw [h.2 rfl]
  rfl

lemma mem_addDir_self (ds : List (List String)) (d : List String) :
    d ∈ addDir ds d := by
  unfold addDir
  split <;> simp_all

lemma mem_addDir_of_mem (ds : List (List String)) (d x : List String)
    (h : x ∈ ds) : x ∈ addDir ds d := by
  unfold addDir
  split <;> simp_all

lemma mem_foldl_addDir_of_mem (l : List (List String)) :
    ∀ (ds : List (List String)) (x : List String),
    x ∈ ds → x ∈ l.foldl addDir ds := by
  induction l with
  | nil => intro ds x h; simpa using h
  | cons a l ih =>
      intro ds x h
      exact ih (addDir ds a) x (mem_addDir_of_mem ds a x h)

lemma mem_foldl_addDir (l : List (List String)) :
    ∀ (ds : List (List String)) (x : List String),
    x ∈ l → x ∈ l.foldl addDir ds := by
  induction l with
  | nil => intro ds x h; simp at h
  | cons a l ih =>
      intro ds x h
      rcases List.mem_cons.mp h with rfl | h
      · exact mem_foldl_addDir_of_mem l (addDir ds x) x (mem_addDir_self ds x)
      · exact ih (addDir ds a) x h

/-- Every prefix of the directory exists after `mkdirAll`. -/
lemma mem_mkdirAll (ds : List (List String)) (dir pre : List String)
    (h : pre ∈ dir.inits) : pre ∈ mkdirAll ds dir :=
  mem_foldl_addDir dir.inits ds pre h

lemma foldl_addDir_of_all_mem (l : List (List String)) :
    ∀ (ds : List (List String)), (∀ x ∈ l, x ∈ ds) → l.foldl addDir ds = ds := by
  induction l with
  | nil => intro ds _; rfl
  | cons a l ih =>
      intro ds h
      have ha : addDir ds a = ds := by
        unfold addDir
        rw [if_pos (h a (by simp))]
      rw [List.foldl_cons, ha]
      exact ih ds (fun x hx => h x (by simp [hx]))

/-- `mkdirAll` is idempotent. -/
lemma mkdirAll_idem (ds : List (List String)) (dir : List String) :
    mkdirAll (mkdirAll ds dir) dir = mkdirAll ds dir :=
  foldl_addDir_of_all_mem dir.inits (mkdirAll ds dir)
    (fun x hx => mem_mkdirAll ds dir x hx)

lemma parseLogFile_bracket (cs : List Char) :
    parseLogFile (String.mk ('[' :: cs))
      = (match parseItemsAux (cs.length + 1) cs with
         | some (js, rest) => if skipWs rest = [] then some js else none
         | none => none) := rfl

/-- **C1.** For every non-empty sequence of log records appended via
`saveToFile` to a fresh path (file initially absent), the resulting file
content parses as a valid JSON array of exactly those record objects, in
call order.  In particular (by definition of `saveToFileContent`): the
append to the zero-byte file writes the opening bracket, the first record
and the closing bracket with no leading comma, and each later append
removes the trailing closing bracket (truncate of the last byte, plus the
seek-one-back overwrite of the preceding newline), writes a comma and the
new serialized record, and re-closes the array. -/
theorem spec_C1 (rs : List logToJSON) (h : rs ≠ []) :
    parseLogFile (appendAll rs) = some rs := by
  have hdata := appendAll_data rs h
  have hstr : appendAll rs
      = String.mk ('['
          :: ('\n' :: ' ' :: ' ' :: (renderItemsChars rs ++ ['\n', ']']))) :=
    String.ext hdata
  rw [hstr, parseLogFile_bracket]
  have hfuel : rs.length
      ≤ ('\n' :: ' ' :: ' ' :: (renderItemsChars rs ++ ['\n', ']'])).length + 1 := by
    have := renderItemsChars_length rs
    simp only [List.length_cons, List.length_append]
    omega
  simp only [parseItemsAux_ws _ '\n' _ rfl, parseItemsAux_ws _ ' ' _ rfl]
  rw [parseItemsAux_render rs _ [] h (by simpa using hfuel)]
  rfl

/-- **C1 witness.** -/
theorem spec_C1_witness :
    ([({ ClosingTime := "t1", Level := "INFO", Message := "hello" } : logToJSON),
      { ClosingTime := "t2", Level := "WARN", Process := "P", Duration := "1 ms",
        User := "u", Message := "a\"b<c" }] : List logToJSON) ≠ []
    ∧ parseLogFile (appendAll
        [{ ClosingTime := "t1", Level := "INFO", Message := "hello" },
         { ClosingTime := "t2", Level := "WARN", Process := "P", Duration := "1 ms",
           User := "u", Message := "a\"b<c" }])
      = some
        [{ ClosingTime := "t1", Level := "INFO", Message := "hello" },
         { ClosingTime := "t2", Level := "WARN", Process := "P", Duration := "1 ms",
           User := "u", Message := "a\"b<c" }] :=
  ⟨by decide, spec_C1 _ (by decide)⟩

/-- **C3 counterexample.** The claim's general rule "a field appears in the
serialized record if and only if its source value is non-empty" fails at a
call with an empty message: `message` carries no `omitempty` tag, so the
`message` field appears in the serialized record even though its source
value is the empty string. -/
theorem spec_C3_cex :
    "message"
        ∈ (marshalFields (logMessage INFO "" {} (GoAny.bool false) 0
            "2024-01-01 00:00:00" none).jsoner).map Prod.fst
      ∧ (logMessage INFO "" {} (GoAny.bool false) 0
          "2024-01-01 00:00:00" none).jsoner.Message = "" := by
  constructor
  · decide
  · rfl

/-- **C3 (amended).** For every log call whose options have empty `Process`,
empty `User`, and zero `StartTime`, the serialized JSON record contains
exactly the three fields `time`, `level`, and `message`; in general an
*optional* field (`process`, `duration`, `user`) appears in the serialized
record if and only if its source value is non-empty (non-zero for
`StartTime`), while `time`, `level` and `message` always appear (even when
their source value is empty), and omitted fields are absent from the
object rather than null (`marshalFields` simply leaves them out). -/
theorem spec_C3 :
    (opts.Process = "" → opts.User = "" → opts.StartTime = 0 →
      (marshalFields (logMessage level message opts defaultFileLog currentTime
          closingTimeStr saveResult).jsoner).map Prod.fst
        = ["time", "level", "message"])
    ∧ ("process" ∈ (marshalFields (logMessage level message opts defaultFileLog
          currentTime closingTimeStr saveResult).jsoner).map Prod.fst
        ↔ opts.Process ≠ "")
    ∧ ("duration" ∈ (marshalFields (logMessage level message opts defaultFileLog
          currentTime closingTimeStr saveResult).jsoner).map Prod.fst
        ↔ opts.StartTime ≠ 0)
    ∧ ("user" ∈ (marshalFields (logMessage level message opts defaultFileLog
          currentTime closingTimeStr saveResult).jsoner).map Prod.fst
        ↔ opts.User ≠ "")
    ∧ "time" ∈ (marshalFields (logMessage level message opts defaultFileLog
          currentTime closingTimeStr saveResult).jsoner).map Prod.fst
    ∧ "level" ∈ (marshalFields (logMessage level message opts defaultFileLog
          currentTime closingTimeStr saveResult).jsoner).map Prod.fst
    ∧ "message" ∈ (marshalFields (logMessage level message opts defaultFileLog
          currentTime closingTimeStr saveResult).jsoner).map Prod.fst := by
  rw [logMessage_jsoner_eta, marshalFields_fst_level_irrel]
  refine ⟨fun hp hu hs => ?_, ?_, ?_, ?_, ?_, ?_, ?_⟩ <;>
    simp only [marshalFields, jsonerOf] <;>
    by_cases hp : opts.Process = "" <;> by_cases hs : opts.StartTime = 0 <;>
      by_cases hu : opts.User = "" <;>
        simp_all [durationString_ne_empty opts currentTime]

/-- **C3 witness.** -/
theorem spec_C3_witness :
    (marshalFields (logMessage INFO "hi" {} (GoAny.bool false) 0
        "t" none).jsoner).map Prod.fst = ["time", "level", "message"] :=
  (spec_C3 INFO "hi" {} (GoAny.bool false) 0 "t" none).1 rfl rfl rfl

/-- **C4.** For every log call with level INFO for which file persistence is
enabled and the file append fails, the level is rewritten to WARN in both
the display parts (index 0) and the JSON record before the display line is
finalized (the final line is built from the rewritten parts); for every
other level the level is left unchanged on append failure. -/
theorem spec_C4 (e : String)
    (hsave : (checkSaveLogOption (effectiveFileLog opts defaultFileLog)).1 = true) :
    (level = INFO →
      (logMessage level message opts defaultFileLog currentTime closingTimeStr
          (some e)).jsoner.Level = WARN
      ∧ (logMessage level message opts defaultFileLog currentTime closingTimeStr
          (some e)).logParts.head? = some (" [" ++ WARN ++ "]"))
    ∧ (level ≠ INFO →
      (logMessage level message opts defaultFileLog currentTime closingTimeStr
          (some e)).jsoner.Level = level
      ∧ (logMessage level message opts defaultFileLog currentTime closingTimeStr
          (some e)).logParts.head? = some (" [" ++ level ++ "]"))
    ∧ (logMessage level message opts defaultFileLog currentTime closingTimeStr
        (some e)).finalMSG
      = closingTimeStr ++ " x"
          ++ String.intercalate " | "
            (logMessage level message opts defaultFileLog currentTime closingTimeStr
              (some e)).logParts
          ++ "\n" := by
  rw [logMessage_saveFail level message opts defaultFileLog currentTime closingTimeStr
    e hsave]
  refine ⟨fun hl => ?_, fun hl => ?_, ?_⟩
  · simp only [hl, if_true, ite_true, buildLogParts_cons]
    simp [jsonerOf]
  · simp only [hl, if_false, ite_false, buildLogParts_cons]
    simp [jsonerOf, hl]
  · rfl

/-- **C4 witness.** -/
theorem spec_C4_witness :
    (checkSaveLogOption (effectiveFileLog { FileLog := GoAny.bool true }
        (GoAny.bool false))).1 = true
    ∧ (logMessage INFO "m" { FileLog := GoAny.bool true } (GoAny.bool false) 0 "t"
        (some "boom")).jsoner.Level = WARN := by
  refine ⟨by decide, ?_⟩
  exact ((spec_C4 INFO "m" { FileLog := GoAny.bool true } (GoAny.bool false) 0 "t"
    "boom" (by decide)).1 rfl).1

/-- **C5.** For every Info or Warn call, a file-sink failure never
propagates an error to the caller: the terminal action is `normal`, the
display line is still produced (it contains the message), and the failure
is surfaced only as extra error text appended as the last display part. -/
theorem spec_C5 (e : String)
    (hsave : (checkSaveLogOption (effectiveFileLog opts defaultFileLog)).1 = true) :
    (Info defaultFileLog message opts currentTime closingTimeStr (some e)).2
      = TermAction.normal
    ∧ (Warn defaultFileLog message opts currentTime closingTimeStr (some e)).2
      = TermAction.normal
    ∧ message
        ∈ (Info defaultFileLog message opts currentTime closingTimeStr
            (some e)).1.logParts
    ∧ message
        ∈ (Warn defaultFileLog message opts currentTime closingTimeStr
            (some e)).1.logParts
    ∧ (Info defaultFileLog message opts currentTime closingTimeStr
          (some e)).1.logParts.getLast? = some ("Error: " ++ e)
    ∧ (Warn defaultFileLog message opts currentTime closingTimeStr
          (some e)).1.logParts.getLast? = some ("Error: " ++ e)
    ∧ (Info defaultFileLog message opts currentTime closingTimeStr
          (some e)).1.finalMSG
        = closingTimeStr ++ " x"
            ++ String.intercalate " | "
              (Info defaultFileLog message opts currentTime closingTimeStr
                (some e)).1.logParts
            ++ "\n"
    ∧ (Warn defaultFileLog message opts currentTime closingTimeStr
          (some e)).1.finalMSG
        = closingTimeStr ++ " x"
            ++ String.intercalate " | "
              (Warn defaultFileLog message opts currentTime closingTimeStr
                (some e)).1.logParts
            ++ "\n" := by
  unfold Info Warn
  have hs1 := logMessage_saveFail INFO message opts defaultFileLog currentTime
    closingTimeStr e hsave
  have hs2 := logMessage_saveFail WARN message opts defaultFileLog currentTime
    closingTimeStr e hsave
  have hw : ¬ (WARN = INFO) := by decide
  refine ⟨rfl, rfl, ?_, ?_, ?_, ?_, ?_, ?_⟩
  · simp only [hs1]
    simp [buildLogParts_cons, List.set]
  · simp only [hs2]
    simp [hw, buildLogParts_cons]
  · simp only [hs1]
    exact List.getLast?_concat _
  · simp only [hs2]
    exact List.getLast?_concat _
  · simp only [hs1]
  · simp only [hs2]

/-- **C5 witness.** -/
theorem spec_C5_witness :
    (checkSaveLogOption (effectiveFileLog { FileLog := GoAny.str "./a.json" }
        (GoAny.bool false))).1 = true
    ∧ (Info (GoAny.bool false) "msg" { FileLog := GoAny.str "./a.json" } 0 "t"
        (some "disk full")).2 = TermAction.normal := by
  refine ⟨by decide, ?_⟩
  exact (spec_C5 "msg" { FileLog := GoAny.str "./a.json" } (GoAny.bool false) 0 "t"
    "disk full" (by decide)).1

/-- **C6.** For every log call, the effective file-logging setting is the
per-call `FileLog` option when it is set (non-nil), otherwise the logger's
default; a boolean `false` yields no file write, a boolean `true` yields a
write to the default path `"./log.json"`, and a non-empty string yields a
write to that string as the path. -/
theorem spec_C6 :
    (opts.FileLog ≠ GoAny.nil →
      effectiveFileLog opts defaultFileLog = opts.FileLog)
    ∧ (opts.FileLog = GoAny.nil →
      effectiveFileLog opts defaultFileLog = defaultFileLog)
    ∧ (effectiveFileLog opts defaultFileLog = GoAny.bool false →
      (logMessage level message opts defaultFileLog currentTime closingTimeStr
          saveResult).savePath = none)
    ∧ (effectiveFileLog opts defaultFileLog = GoAny.bool true →
      (logMessage level message opts defaultFileLog currentTime closingTimeStr
          saveResult).savePath = some "./log.json")
    ∧ (∀ s, s ≠ "" → effectiveFileLog opts defaultFileLog = GoAny.str s →
      (logMessage level message opts defaultFileLog currentTime closingTimeStr
          saveResult).savePath = some s) := by
  refine ⟨fun h => ?_, fun h => ?_, fun h => ?_, fun h => ?_, fun s hs h => ?_⟩
  · simp [effectiveFileLog, h]
  · simp [effectiveFileLog, h]
  · rw [logMessage_savePath, h]
    rfl
  · rw [logMessage_savePath, h]
    rfl
  · rw [logMessage_savePath, h]
    simp [checkSaveLogOption, hs]

/-- **C6 witness.** -/
theorem spec_C6_witness :
    ((GoAny.str "./x.json" : GoAny) ≠ GoAny.nil
      ∧ effectiveFileLog { FileLog := GoAny.str "./x.json" } (GoAny.bool false)
          = GoAny.str "./x.json")
    ∧ (logMessage INFO "m" { FileLog := GoAny.str "./x.json" } (GoAny.bool false) 0 "t"
        none).savePath = some "./x.json" := by
  have h := spec_C6 INFO "m" { FileLog := GoAny.str "./x.json" } (GoAny.bool false) 0
    "t" none
  exact ⟨⟨by decide, h.1 (by decide)⟩,
    h.2.2.2.2 "./x.json" (by decide) (h.1 (by decide))⟩

/-- **C7.** For every message and options (and every file-sink outcome),
`Fatal` logs the message at level FATAL and then terminates the process
with exit status 1, and `Panic` logs the message at level PANIC and then
raises a Go panic carrying exactly the message string (recoverable by an
enclosing `recover()`, as the package's own `TestWithPanic` exercises);
the terminal action does not depend on `saveResult`. -/
theorem spec_C7 :
    (Fatal defaultFileLog message opts currentTime closingTimeStr saveResult).2
      = TermAction.exitCode 1
    ∧ (Panic defaultFileLog message opts currentTime closingTimeStr saveResult).2
      = TermAction.panicMsg message
    ∧ (Fatal defaultFileLog message opts currentTime closingTimeStr saveResult).1
      = logMessage FATAL message opts defaultFileLog currentTime closingTimeStr
          saveResult
    ∧ (Panic defaultFileLog message opts currentTime closingTimeStr saveResult).1
      = logMessage PANIC message opts defaultFileLog currentTime closingTimeStr
          saveResult :=
  ⟨rfl, rfl, rfl, rfl⟩

/-- **C8.** For every log call with a non-zero `StartTime`, the duration
field of the record equals `(currentTime - StartTime)` nanoseconds
converted to whole milliseconds by division truncated toward zero,
formatted `"<N> ms"` — where `currentTime` is the clock sample taken while
formatting — and the value is non-negative whenever `StartTime ≤
currentTime`. -/
theorem spec_C8 (h : opts.StartTime ≠ 0) :
    (logMessage level message opts defaultFileLog currentTime closingTimeStr
        saveResult).jsoner.Duration
      = toString (Int.tdiv (currentTime - opts.StartTime) 1000000) ++ " ms"
    ∧ (opts.StartTime ≤ currentTime →
        0 ≤ Int.tdiv (currentTime - opts.StartTime) 1000000) := by
  constructor
  · rw [logMessage_jsoner_eta]
    simp [jsonerOf, h, durationString]
  · intro hle
    exact Int.tdiv_nonneg (by omega) (by norm_num)

/-- **C8 witness.** -/
theorem spec_C8_witness :
    ((1000000 : Int) ≠ 0 ∧ (1000000 : Int) ≤ 251000000)
    ∧ (logMessage INFO "m" { StartTime := 1000000 } (GoAny.bool false) 251000000 "t"
        none).jsoner.Duration = "250 ms"
    ∧ 0 ≤ Int.tdiv ((251000000 : Int) - 1000000) 1000000 := by
  have h := spec_C8 INFO "m" { StartTime := 1000000 } (GoAny.bool false) 251000000 "t"
    none (by decide)
  refine ⟨⟨by decide, by decide⟩, ?_, h.2 (by decide)⟩
  rw [h.1]
  rfl

/-- **C9.** For every path whose parent directories do not all exist,
`saveToFile` creates all missing parent directories recursively (every
prefix of the parent directory exists afterwards) and the append succeeds
(`Except.ok`); directory creation is idempotent when the directories
already exist. -/
theorem spec_C9 (fs : FS) (j : logToJSON) (filePath : List String) :
    (saveToFile fs j filePath).2 = Except.ok ()
    ∧ (∀ pre ∈ (filePath.dropLast).inits,
        pre ∈ (saveToFile fs j filePath).1.dirs)
    ∧ mkdirAll (mkdirAll fs.dirs filePath.dropLast) filePath.dropLast
        = mkdirAll fs.dirs filePath.dropLast := by
  have hdir : filePath.dropLast ∈ mkdirAll fs.dirs filePath.dropLast :=
    mem_mkdirAll fs.dirs filePath.dropLast filePath.dropLast
      (by simp [List.mem_inits])
  unfold saveToFile
  rw [if_pos (Or.inr hdir)]
  refine ⟨rfl, ?_, mkdirAll_idem fs.dirs filePath.dropLast⟩
  intro pre hpre
  show pre ∈ (writeFile { fs with dirs := mkdirAll fs.dirs filePath.dropLast } _ _).dirs
  simp only [writeFile]
  exact mem_mkdirAll fs.dirs filePath.dropLast pre hpre

/-- **C9 witness.** -/
theorem spec_C9_witness :
    (saveToFile {} { ClosingTime := "t", Level := "INFO", Message := "m" }
        ["logs", "a.json"]).2 = Except.ok ()
    ∧ ["logs"] ∈ (saveToFile {} { ClosingTime := "t", Level := "INFO", Message := "m" }
        ["logs", "a.json"]).1.dirs :=
  ⟨(spec_C9 {} { ClosingTime := "t", Level := "INFO", Message := "m" }
      ["logs", "a.json"]).1,
   (spec_C9 {} { ClosingTime := "t", Level := "INFO", Message := "m" }
      ["logs", "a.json"]).2.1 ["logs"] (by decide)⟩

/-- **C10.** For every log call whose effective `FileLog` setting is neither
a bool nor a string, no file write is attempted and the call still
completes normally: `checkSaveLogOption` returns `shouldSave = false`
together with an error whose text is appended to the display parts, and
the final display line (joined from those parts) still carries the
message; an empty string also disables saving, but without an error. -/
theorem spec_C10 :
    ((effectiveFileLog opts defaultFileLog = GoAny.nil
        ∨ (∃ t, effectiveFileLog opts defaultFileLog = GoAny.other t)) →
      (checkSaveLogOption (effectiveFileLog opts defaultFileLog)).1 = false
      ∧ ∃ emsg,
          (checkSaveLogOption (effectiveFileLog opts defaultFileLog)).2.2 = some emsg
          ∧ (logMessage level message opts defaultFileLog currentTime closingTimeStr
              saveResult).savePath = none
          ∧ (logMessage level message opts defaultFileLog currentTime closingTimeStr
              saveResult).logParts
            = buildLogParts level message opts currentTime ++ ["Error: " ++ emsg]
          ∧ message
              ∈ (logMessage level message opts defaultFileLog currentTime
                  closingTimeStr saveResult).logParts
          ∧ (logMessage level message opts defaultFileLog currentTime closingTimeStr
              saveResult).finalMSG
            = closingTimeStr ++ " ✓"
                ++ String.intercalate " | "
                  (logMessage level message opts defaultFileLog currentTime
                    closingTimeStr saveResult).logParts
                ++ "\n")
    ∧ (effectiveFileLog opts defaultFileLog = GoAny.str "" →
      (checkSaveLogOption (effectiveFileLog opts defaultFileLog)).1 = false
      ∧ (checkSaveLogOption (effectiveFileLog opts defaultFileLog)).2.2 = none
      ∧ (logMessage level message opts defaultFileLog currentTime closingTimeStr
          saveResult).savePath = none
      ∧ (logMessage level message opts defaultFileLog currentTime closingTimeStr
          saveResult).finalMSG
        = closingTimeStr ++ " ✓"
            ++ String.intercalate " | "
              (logMessage level message opts defaultFileLog currentTime closingTimeStr
                saveResult).logParts
            ++ "\n") := by
  constructor
  · intro heff
    have hrep : ∃ emsg, checkSaveLogOption (effectiveFileLog opts defaultFileLog)
        = (false, "", some emsg) := by
      rcases heff with h | ⟨t, h⟩ <;> rw [h] <;> exact ⟨_, rfl⟩
    obtain ⟨emsg, hc⟩ := hrep
    have hfalse : (checkSaveLogOption (effectiveFileLog opts defaultFileLog)).1
        = false := by rw [hc]
    rw [logMessage_savePath, logMessage_noSave level message opts defaultFileLog
      currentTime closingTimeStr saveResult hfalse]
    refine ⟨hfalse, emsg, by rw [hc], by rw [hc]; rfl, ?_, ?_, ?_⟩
    · simp only [hc]
    · simp only [hc]
      exact List.mem_append_left _
        (message_mem_buildLogParts level message opts currentTime)
    · simp only [hc]
  · intro heff
    have hfalse : (checkSaveLogOption (effectiveFileLog opts defaultFileLog)).1
        = false := by rw [heff]; rfl
    rw [logMessage_savePath, logMessage_noSave level message opts defaultFileLog
      currentTime closingTimeStr saveResult hfalse]
    rw [heff]
    exact ⟨rfl, rfl, rfl, rfl⟩

/-- **C10 witness.** -/
theorem spec_C10_witness :
    (effectiveFileLog { FileLog := GoAny.other "int" } (GoAny.bool false)
        = GoAny.nil
      ∨ ∃ t, effectiveFileLog { FileLog := GoAny.other "int" } (GoAny.bool false)
          = GoAny.other t)
    ∧ (logMessage INFO "m" { FileLog := GoAny.other "int" } (GoAny.bool false) 0 "t"
        none).savePath = none := by
  have h := (spec_C10 INFO "m" { FileLog := GoAny.other "int" } (GoAny.bool false) 0
    "t" none).1 (Or.inr ⟨"int", rfl⟩)
  obtain ⟨_, _, _, hpath, _⟩ := h
  exact ⟨Or.inr ⟨"int", rfl⟩, hpath⟩

end ClaimTheorems

end Gologger
